import Mathlib

/-!
Verification of the Gemini coding agent (`src/agent.py`, `src/config.py`,
`src/tools/base.py`, `src/tools/file_ops.py`, `src/tools/shell_exec.py`)
against its natural-language specification.

The Python code is shallowly embedded: paths are lists of name segments,
the filesystem is an association list from resolved paths to entries,
Python exceptions are an explicit `PyResult` sum, and the `re` module and
the Gemini model are oracle parameters.  All definitions follow the source
line by line; theorems settle the specification's claims.
-/

namespace GeminiAgent

/-! ## Paths and `_validate_path_security`

A resolved absolute path is the list of its name segments
(`/root/work` is `["root", "work"]`).  A candidate path as handed to a
tool is a flag `absolute` (the result of `os.path.isabs`) together with
its segments, which may still contain `".."` and `"."`.
The embedding assumes a symlink-free filesystem, so `Path.resolve`
acts lexically. -/

abbrev AbsPath := List String

structure Candidate where
  absolute : Bool
  segs : List String
deriving DecidableEq, Repr

/-- One step of lexical resolution: `".."` pops the last segment
(`Path("/").resolve()` stays at the root), `"."` and empty segments are
dropped, anything else is appended. -/
def resolveStep (acc : List String) (seg : String) : List String :=
  if seg = ".." then acc.dropLast
  else if seg = "." ∨ seg = "" then acc
  else acc ++ [seg]

/-- `(working_directory / path).resolve()` on a symlink-free filesystem:
start from the resolved root and fold the candidate's segments. -/
def resolveLex (root : AbsPath) (segs : List String) : AbsPath :=
  segs.foldl resolveStep root

/-- `str(path)` for a resolved absolute path: `"/" + seg` for each segment,
as a character list (Python strings compared with `str.startswith`). -/
def pathChars : List String → List Char
  | [] => []
  | seg :: rest => '/' :: (seg.data ++ pathChars rest)

/-- `_validate_path_security` from `src/tools/file_ops.py` (identical in all
four file tools): reject absolute candidates, resolve
`working_directory / path`, then require
`str(file_path).startswith(str(self.working_directory))`. -/
def validatePathSecurity (wd : AbsPath) (path : Candidate) : Option AbsPath :=
  if path.absolute then none
  else
    let filePath := resolveLex wd path.segs
    if (pathChars wd).isPrefixOf (pathChars filePath) then some filePath else none

/-- `p` denotes a location strictly inside the directory `wd`. -/
def StrictlyInside (wd p : AbsPath) : Prop :=
  wd <+: p ∧ p ≠ wd

lemma pathChars_append (a b : List String) :
    pathChars (a ++ b) = pathChars a ++ pathChars b := by
  induction a with
  | nil => simp [pathChars]
  | cons s rest ih => simp [pathChars, ih]

lemma pathChars_isPrefixOf_of_prefix {wd r : AbsPath} (h : wd <+: r) :
    (pathChars wd).isPrefixOf (pathChars r) = true := by
  obtain ⟨t, rfl⟩ := h
  rw [List.isPrefixOf_iff_prefix, pathChars_append]
  exact ⟨_, rfl⟩

instance (wd p : AbsPath) : Decidable (StrictlyInside wd p) :=
  decidable_of_iff (wd <+: p ∧ p ≠ wd) Iff.rfl

/-- C1 (counterexample): with root `/root/work`, the relative candidate
`../work2/secret` resolves to `/root/work2/secret`, which lies outside the
root, yet `_validate_path_security` accepts it, because the string
`"/root/work2/secret"` starts with the string `"/root/work"`.  So "every
candidate that resolves outside the root is Denied" is false. -/
theorem c1_path_validation_counterexample :
    validatePathSecurity ["root", "work"] ⟨false, ["..", "work2", "secret"]⟩
      = some ["root", "work2", "secret"]
    ∧ ¬ (["root", "work"] : AbsPath) <+: ["root", "work2", "secret"] := by
  exact ⟨by decide, by decide⟩

/-- C1 (amended): `_validate_path_security` rejects every absolute candidate,
and accepts a relative candidate exactly when the rendered string of the
resolved path `root / candidate` extends the rendered string of the root —
in particular every candidate resolving strictly inside the root is accepted
and the returned canonical path is root-prefixed, but a sibling directory
whose rendered string extends the root's string also slips through. -/
theorem c1_path_validation_amended :
    (∀ (wd : AbsPath) (cand : Candidate) (r : AbsPath),
        validatePathSecurity wd cand = some r ↔
          cand.absolute = false ∧ r = resolveLex wd cand.segs ∧
            (pathChars wd).isPrefixOf (pathChars r) = true)
    ∧ (∀ (wd : AbsPath) (cand : Candidate),
        cand.absolute = false →
        StrictlyInside wd (resolveLex wd cand.segs) →
        validatePathSecurity wd cand = some (resolveLex wd cand.segs)) := by
  have main : ∀ (wd : AbsPath) (cand : Candidate) (r : AbsPath),
      validatePathSecurity wd cand = some r ↔
        cand.absolute = false ∧ r = resolveLex wd cand.segs ∧
          (pathChars wd).isPrefixOf (pathChars r) = true := by
    intro wd cand r
    constructor
    · intro h
      simp only [validatePathSecurity] at h
      split at h
      · exact absurd h (by simp)
      · next habs =>
        split at h
        · next hp =>
          have hr := Option.some_inj.mp h
          subst hr
          exact ⟨by simpa using habs, rfl, hp⟩
        · exact absurd h (by simp)
    · rintro ⟨hab, rfl, hp⟩
      simp [validatePathSecurity, hab, hp]
  refine ⟨main, fun wd cand hab hin => ?_⟩
  exact (main wd cand _).mpr ⟨hab, rfl, pathChars_isPrefixOf_of_prefix hin.1⟩

/-- Witness for C1 (amended): the candidate `sub/f.txt` under root
`/root/work` resolves strictly inside the root and is accepted. -/
theorem c1_path_validation_amended_witness :
    validatePathSecurity ["root", "work"] ⟨false, ["sub", "f.txt"]⟩
      = some ["root", "work", "sub", "f.txt"] := by
  have h := c1_path_validation_amended.2 ["root", "work"] ⟨false, ["sub", "f.txt"]⟩
    rfl (by decide)
  simpa using h

/-! ## Filesystem model

The filesystem is an association list from resolved absolute paths to
entries.  A file's on-disk bytes either decode as UTF-8 text (stored as the
decoded string), or raise `UnicodeDecodeError` on `open(..., 'r',
encoding='utf-8')` (`binary`), or raise `PermissionError` on `open`
(`noPerm`). -/

inductive FileData where
  | text (s : String)
  | binary (size : Nat)
  | noPerm (size : Nat)
deriving DecidableEq, Repr

inductive Entry where
  | file (data : FileData)
  | dir
deriving DecidableEq, Repr

abbrev FS := List (AbsPath × Entry)

/-- `stat().st_size` of a file. -/
def fdSize : FileData → Nat
  | .text s => s.utf8ByteSize
  | .binary n => n
  | .noPerm n => n

/-- Universal-newline decoding performed by CPython's text-mode `read()`
with `newline=None`: `"\r\n"` and lone `"\r"` are translated to `"\n"`. -/
def univNL : List Char → List Char
  | [] => []
  | [c] => [if c = '\r' then '\n' else c]
  | c₁ :: c₂ :: rest =>
    if c₁ = '\r' then
      if c₂ = '\n' then '\n' :: univNL rest
      else '\n' :: univNL (c₂ :: rest)
    else c₁ :: univNL (c₂ :: rest)

def univNLStr (s : String) : String := ⟨univNL s.data⟩

theorem univNL_eq_self : ∀ {l : List Char}, '\r' ∉ l → univNL l = l
  | [], _ => rfl
  | [c], h => by
    have hc : c ≠ '\r' := fun e => h (by simp [e])
    simp [univNL, hc]
  | c₁ :: c₂ :: rest, h => by
    have hc : c₁ ≠ '\r' := fun e => h (by simp [e])
    have h' : '\r' ∉ c₂ :: rest := fun m => h (List.mem_cons_of_mem _ m)
    simp [univNL, hc, univNL_eq_self h']

theorem univNLStr_eq_self {s : String} (h : '\r' ∉ s.data) : univNLStr s = s := by
  cases s with
  | mk data => simpa [univNLStr] using congrArg String.mk (univNL_eq_self h)

/-- The string the tool reports back for a path, `str(p.relative_to(wd))`:
defined when `wd` is a prefix of `p` (otherwise `relative_to` raises
`ValueError`, which the tools' generic handler converts to an error). -/
def relTo (wd p : AbsPath) : Option String :=
  if wd.isPrefixOf p then
    some (match p.drop wd.length with
          | [] => "."
          | segs => String.intercalate "/" segs)
  else none

/-- Rendering of the raw candidate string, used inside error messages. -/
def candStr (c : Candidate) : String :=
  (if c.absolute then "/" else "") ++ String.intercalate "/" c.segs

/-- Overwrite (or create) the file at `p` with UTF-8 text `content`.
On Linux `os.linesep = "\n"`, so text-mode writing stores the string
unchanged. -/
def fsSetFile (fs : FS) (p : AbsPath) (content : String) : FS :=
  (p, Entry.file (.text content)) :: fs.filter (fun e => ¬ e.1 = p)

/-- All proper prefixes of a path (the chain of parent directories). -/
def properPrefixes (p : AbsPath) : List AbsPath :=
  (List.range p.length).map (fun n => p.take n)

/-- `mkdir(parents=True, exist_ok=True)` fails if some ancestor of `p`
exists as a regular file. -/
def parentObstructed (fs : FS) (p : AbsPath) : Bool :=
  (properPrefixes p).any (fun q =>
    match fs.lookup q with
    | some (.file _) => true
    | _ => false)

/-- `file_path.parent.mkdir(parents=True, exist_ok=True)`: create every
missing ancestor as a directory. -/
def mkParents (fs : FS) (p : AbsPath) : FS :=
  (properPrefixes p).foldl
    (fun acc q => if (acc.lookup q).isSome then acc else (q, Entry.dir) :: acc) fs

/-! ## `ReadFileTool.execute` and `WriteFileTool.execute` -/

inductive ReadFileResult where
  | ok (content : String) (path : String) (size : Nat)
  | error (msg : String)
deriving DecidableEq, Repr

inductive WriteFileResult where
  | ok (path : String) (size : Nat) (message : String)
  | error (msg : String)
deriving DecidableEq, Repr

/-- `ReadFileTool.execute`: validate, check existence and regular-file-ness,
read in UTF-8 text mode (universal newlines), and report content, relative
path and byte size. -/
def readFile (wd : AbsPath) (fs : FS) (path : Candidate) : ReadFileResult :=
  match validatePathSecurity wd path with
  | none => .error "Access denied: path outside working directory or invalid path"
  | some filePath =>
    match fs.lookup filePath with
    | none => .error ("File not found: " ++ candStr path)
    | some .dir => .error ("Path is not a file: " ++ candStr path)
    | some (.file fd) =>
      match fd with
      | .text s =>
        match relTo wd filePath with
        | some rel => .ok (univNLStr s) rel (fdSize (.text s))
        | none => .error "Could not read file: path is not relative to the working directory"
      | .binary _ => .error ("File is not readable as UTF-8 text: " ++ candStr path)
      | .noPerm _ => .error ("Permission denied reading file: " ++ candStr path)

/-- `WriteFileTool.execute`: validate, create missing parent directories,
open for writing (an existing directory or unwritable file at the target is
an error), overwrite unconditionally, and report the UTF-8 byte count of
the content.  Note the parent directories created before a late failure
persist, as in the source. -/
def writeFile (wd : AbsPath) (fs : FS) (path : Candidate) (content : String) :
    FS × WriteFileResult :=
  match validatePathSecurity wd path with
  | none => (fs, .error "Access denied: path outside working directory or invalid path")
  | some filePath =>
    if parentObstructed fs filePath then
      (fs, .error "OS error writing file: parent path exists and is not a directory")
    else
      match (mkParents fs filePath).lookup filePath with
      | some .dir => (mkParents fs filePath, .error "OS error writing file: target is a directory")
      | some (.file (.noPerm _)) =>
        (mkParents fs filePath, .error ("Permission denied writing to file: " ++ candStr path))
      | _ =>
        match relTo wd filePath with
        | some rel =>
          (fsSetFile (mkParents fs filePath) filePath content,
            .ok rel content.utf8ByteSize ("File written successfully: " ++ candStr path))
        | none =>
          (fsSetFile (mkParents fs filePath) filePath content,
            .error "Could not write file: path is not relative to the working directory")

lemma lookup_fsSetFile_self (fs : FS) (p : AbsPath) (content : String) :
    (fsSetFile fs p content).lookup p = some (Entry.file (.text content)) := by
  simp [fsSetFile, List.lookup]

/-- C2 (counterexample): writing `"a\rb"` to `f.txt` succeeds (3 bytes on
disk), but reading it back yields `"a\nb"`: CPython's text-mode `read()`
translates the carriage return, so the round-trip is not byte-for-byte for
every valid UTF-8 text. -/
theorem c2_write_read_counterexample :
    (writeFile ["root", "work"] [((["root", "work"] : AbsPath), Entry.dir)]
        ⟨false, ["f.txt"]⟩ "a\rb").2
      = WriteFileResult.ok "f.txt" 3 "File written successfully: f.txt"
    ∧ readFile ["root", "work"]
        (writeFile ["root", "work"] [((["root", "work"] : AbsPath), Entry.dir)]
          ⟨false, ["f.txt"]⟩ "a\rb").1
        ⟨false, ["f.txt"]⟩
      = ReadFileResult.ok "a\nb" "f.txt" 3
    ∧ ("a\nb" : String) ≠ "a\rb" :=
  ⟨by decide, by decide, by decide⟩

/-- C2 (amended): if `write_file` succeeds on candidate `P` with text `T`
and `T` contains no carriage return, then `read_file` on `P` returns
success with content exactly `T` (and `T`'s UTF-8 byte size).  For texts
containing `"\r"` the content read back is `T` with universal-newline
translation applied instead. -/
theorem c2_write_read_amended (wd : AbsPath) (fs : FS) (p : Candidate) (T : String)
    (rel : String) (n : Nat) (msg : String)
    (hcr : '\r' ∉ T.data)
    (hw : (writeFile wd fs p T).2 = .ok rel n msg) :
    readFile wd (writeFile wd fs p T).1 p = .ok T rel T.utf8ByteSize := by
  unfold writeFile at hw ⊢
  cases hva : validatePathSecurity wd p with
  | none => rw [hva] at hw; simp at hw
  | some filePath =>
    rw [hva] at hw
    dsimp only at hw ⊢
    by_cases hob : parentObstructed fs filePath = true
    · rw [if_pos hob] at hw; simp at hw
    · rw [if_neg hob] at hw ⊢
      cases hlk : List.lookup filePath (mkParents fs filePath) with
      | none =>
        rw [hlk] at hw
        dsimp only at hw ⊢
        cases hrel : relTo wd filePath with
        | none => rw [hrel] at hw; simp at hw
        | some rel' =>
          rw [hrel] at hw
          dsimp only at hw ⊢
          obtain ⟨hr, -, -⟩ := WriteFileResult.ok.inj hw
          subst hr
          unfold readFile
          rw [hva]; dsimp only
          rw [lookup_fsSetFile_self]; dsimp only
          rw [hrel]; dsimp only
          rw [univNLStr_eq_self hcr]
          rfl
      | some e =>
        cases e with
        | dir => rw [hlk] at hw; simp at hw
        | file fd =>
          cases fd with
          | noPerm sz => rw [hlk] at hw; simp at hw
          | text s =>
            rw [hlk] at hw
            dsimp only at hw ⊢
            cases hrel : relTo wd filePath with
            | none => rw [hrel] at hw; simp at hw
            | some rel' =>
              rw [hrel] at hw
              dsimp only at hw ⊢
              obtain ⟨hr, -, -⟩ := WriteFileResult.ok.inj hw
              subst hr
              unfold readFile
              rw [hva]; dsimp only
              rw [lookup_fsSetFile_self]; dsimp only
              rw [hrel]; dsimp only
              rw [univNLStr_eq_self hcr]
              rfl
          | binary sz =>
            rw [hlk] at hw
            dsimp only at hw ⊢
            cases hrel : relTo wd filePath with
            | none => rw [hrel] at hw; simp at hw
            | some rel' =>
              rw [hrel] at hw
              dsimp only at hw ⊢
              obtain ⟨hr, -, -⟩ := WriteFileResult.ok.inj hw
              subst hr
              unfold readFile
              rw [hva]; dsimp only
              rw [lookup_fsSetFile_self]; dsimp only
              rw [hrel]; dsimp only
              rw [univNLStr_eq_self hcr]
              rfl

/-! ## Name ordering

Python's `list.sort(key=lambda x: x["name"])` compares the name strings
lexicographically by code point.  `String ≤` in Lean is not
kernel-reducible, so the comparison is spelt out on character lists. -/

def charListLe : List Char → List Char → Bool
  | [], _ => true
  | _ :: _, [] => false
  | a :: as, b :: bs => if a = b then charListLe as bs else decide (a < b)

lemma charListLe_total : ∀ a b, charListLe a b = true ∨ charListLe b a = true
  | [], _ => .inl rfl
  | _ :: _, [] => .inr rfl
  | a :: as, b :: bs => by
    by_cases hab : a = b
    · subst hab
      rcases charListLe_total as bs with h | h
      · left; simp [charListLe, h]
      · right; simp [charListLe, h]
    · rcases lt_or_gt_of_ne hab with h | h
      · left; simp [charListLe, hab, h]
      · right
        have hba : ¬ b = a := fun e => hab e.symm
        simp [charListLe, hba, h]

lemma charListLe_trans : ∀ {a b c}, charListLe a b = true → charListLe b c = true →
    charListLe a c = true
  | [], _, _, _, _ => rfl
  | _ :: _, [], _, h, _ => by simp [charListLe] at h
  | _ :: _, _ :: _, [], _, h => by simp [charListLe] at h
  | a :: as, b :: bs, c :: cs, h₁, h₂ => by
    simp only [charListLe] at h₁ h₂ ⊢
    by_cases hab : a = b
    · subst hab
      rw [if_pos rfl] at h₁
      by_cases hac : a = c
      · subst hac
        rw [if_pos rfl] at h₂ ⊢
        exact charListLe_trans h₁ h₂
      · rw [if_neg hac] at h₂ ⊢
        exact h₂
    · rw [if_neg hab] at h₁
      have hlt₁ : a < b := of_decide_eq_true h₁
      by_cases hbc : b = c
      · subst hbc
        rw [if_neg hab]
        exact h₁
      · rw [if_neg hbc] at h₂
        have hlt₂ : b < c := of_decide_eq_true h₂
        have hlt : a < c := lt_trans hlt₁ hlt₂
        rw [if_neg (ne_of_lt hlt)]
        exact decide_eq_true hlt

lemma charListLe_antisymm : ∀ {a b}, charListLe a b = true → charListLe b a = true → a = b
  | [], [], _, _ => rfl
  | [], _ :: _, _, h => by simp [charListLe] at h
  | _ :: _, [], h, _ => by simp [charListLe] at h
  | a :: as, b :: bs, h₁, h₂ => by
    simp only [charListLe] at h₁ h₂
    by_cases hab : a = b
    · subst hab
      rw [if_pos rfl] at h₁ h₂
      rw [charListLe_antisymm h₁ h₂]
    · rw [if_neg hab] at h₁
      rw [if_neg (fun e => hab e.symm)] at h₂
      exact absurd (lt_trans (of_decide_eq_true h₁) (of_decide_eq_true h₂)) (lt_irrefl a)

/-- Witness for C2 (amended): round-tripping `"hello\nworld"` through
`f.txt` returns exactly the written text. -/
theorem c2_write_read_amended_witness :
    readFile ["root", "work"]
        (writeFile ["root", "work"] [((["root", "work"] : AbsPath), Entry.dir)]
          ⟨false, ["f.txt"]⟩ "hello\nworld").1
        ⟨false, ["f.txt"]⟩
      = ReadFileResult.ok "hello\nworld" "f.txt" 11 :=
  c2_write_read_amended ["root", "work"] [((["root", "work"] : AbsPath), Entry.dir)]
    ⟨false, ["f.txt"]⟩ "hello\nworld" "f.txt" 11 "File written successfully: f.txt"
    (by decide) (by decide)

/-! ## `ListFilesTool.execute` -/

/-- One entry of the returned listing (`item_info` in the source): the
`size` field is `None` for directories. -/
structure ItemInfo where
  name : String
  path : String
  size : Option Nat
deriving DecidableEq, Repr

/-- The sort key relation `key=lambda x: x["name"]`. -/
def nameLe (x y : ItemInfo) : Prop := charListLe x.name.data y.name.data = true

/-- Strict version of `nameLe`, used to show sorted listings are unique. -/
def nameLt (x y : ItemInfo) : Prop := nameLe x y ∧ x.name ≠ y.name

instance : DecidableRel nameLe := fun _ _ => inferInstanceAs (Decidable (_ = true))

instance : IsTotal ItemInfo nameLe := ⟨fun a b => charListLe_total a.name.data b.name.data⟩

instance : IsTrans ItemInfo nameLe := ⟨fun _ _ _ => charListLe_trans⟩

lemma string_eq_of_data_eq {s t : String} (h : s.data = t.data) : s = t := by
  cases s; cases t; exact congrArg String.mk h

instance : IsAntisymm ItemInfo nameLt :=
  ⟨fun _ _ h₁ h₂ =>
    absurd (string_eq_of_data_eq (charListLe_antisymm h₁.1 h₂.1)) h₁.2⟩

/-- `list.sort(key=lambda x: x["name"])`. -/
def sortByName (l : List ItemInfo) : List ItemInfo := List.insertionSort nameLe l

/-- The final name segment of a path (`item.name`). -/
def nameOf (p : AbsPath) : String := p.getLastD ""

/-- `dir_path.iterdir()`: the immediate children of `d` present in `fs`. -/
def childrenOf (fs : FS) (d : AbsPath) : List (AbsPath × Entry) :=
  fs.filter (fun e => ¬ e.1 = [] ∧ e.1.dropLast = d)

/-- A file child as an `item_info` dict. -/
def fileItem (wd : AbsPath) (e : AbsPath × Entry) : Option ItemInfo :=
  match e.2 with
  | .file fd => some ⟨nameOf e.1, (relTo wd e.1).getD "", some (fdSize fd)⟩
  | .dir => none

/-- A directory child as an `item_info` dict. -/
def dirItem (wd : AbsPath) (e : AbsPath × Entry) : Option ItemInfo :=
  match e.2 with
  | .dir => some ⟨nameOf e.1, (relTo wd e.1).getD "", none⟩
  | .file _ => none

inductive ListFilesResult where
  | ok (path : String) (directories : List ItemInfo) (files : List ItemInfo) (totalItems : Nat)
  | error (msg : String)
deriving DecidableEq, Repr

/-- `ListFilesTool.execute`: validate, check the directory exists, iterate
its immediate children into file and directory partitions, sort each by
name, and report `total_items = len(files) + len(directories)`.  A child
outside the working directory would make `relative_to` raise, handled by
the generic exception handler. -/
def listFiles (wd : AbsPath) (fs : FS) (path : Candidate) : ListFilesResult :=
  match validatePathSecurity wd path with
  | none => .error "Access denied: path outside working directory or invalid path"
  | some dirPath =>
    match fs.lookup dirPath with
    | none => .error ("Directory not found: " ++ candStr path)
    | some (.file _) => .error ("Path is not a directory: " ++ candStr path)
    | some .dir =>
      if (childrenOf fs dirPath).all (fun e => (relTo wd e.1).isSome) then
        match relTo wd dirPath with
        | some relDir =>
          .ok relDir
            (sortByName ((childrenOf fs dirPath).filterMap (dirItem wd)))
            (sortByName ((childrenOf fs dirPath).filterMap (fileItem wd)))
            (((childrenOf fs dirPath).filterMap (fileItem wd)).length
              + ((childrenOf fs dirPath).filterMap (dirItem wd)).length)
        | none => .error "Could not list directory: path is not relative to the working directory"
      else .error "Could not list directory: path is not relative to the working directory"

lemma relTo_isSome_of_under {wd p : AbsPath} (h : wd <+: p) : (relTo wd p).isSome = true := by
  rw [relTo, if_pos (by rw [List.isPrefixOf_iff_prefix]; exact h)]
  rfl

lemma mem_childrenOf {fs : FS} {d : AbsPath} {e : AbsPath × Entry} (h : e ∈ childrenOf fs d) :
    e ∈ fs ∧ e.1 ≠ [] ∧ e.1.dropLast = d := by
  rw [childrenOf, List.mem_filter] at h
  refine ⟨h.1, ?_, ?_⟩
  · exact fun hnil => by simpa [hnil] using h.2
  · have := h.2
    simp only [decide_eq_true_eq] at this
    exact this.2

lemma child_under {fs : FS} {d : AbsPath} {e : AbsPath × Entry} (h : e ∈ childrenOf fs d) :
    d <+: e.1 := by
  obtain ⟨-, hne, hdl⟩ := mem_childrenOf h
  exact ⟨[e.1.getLast hne], by rw [← hdl]; exact List.dropLast_append_getLast hne⟩

lemma lookup_eq_of_perm {α β : Type _} [BEq α] [LawfulBEq α] {l₁ l₂ : List (α × β)}
    (h : l₁.Perm l₂) (nd : (l₁.map Prod.fst).Nodup) (a : α) :
    List.lookup a l₁ = List.lookup a l₂ := by
  induction h with
  | nil => rfl
  | cons x h ih =>
    simp only [List.map_cons, List.nodup_cons] at nd
    obtain ⟨x₁, x₂⟩ := x
    simp only [List.lookup]
    cases hax : a == x₁ with
    | true => rfl
    | false => exact ih nd.2
  | swap x y l =>
    obtain ⟨x₁, x₂⟩ := x
    obtain ⟨y₁, y₂⟩ := y
    simp only [List.map_cons, List.nodup_cons, List.mem_cons] at nd
    simp only [List.lookup]
    cases hay : a == y₁ with
    | true =>
      have ha : a = y₁ := eq_of_beq hay
      have hax : (a == x₁) = false :=
        beq_eq_false_iff_ne.mpr (fun e => nd.1 (Or.inl (ha.symm.trans e)))
      rw [hax]
    | false =>
      cases hax : a == x₁ with
      | true => rfl
      | false => rfl
  | trans h₁ h₂ ih₁ ih₂ =>
    rw [ih₁ nd, ih₂ (((h₁.map Prod.fst).nodup_iff).mp nd)]

lemma all_eq_of_perm {α : Type _} {l₁ l₂ : List α} (h : l₁.Perm l₂) (f : α → Bool) :
    l₁.all f = l₂.all f := by
  induction h with
  | nil => rfl
  | cons x _ ih => simp only [List.all_cons, ih]
  | swap x y l => simp only [List.all_cons, ← Bool.and_assoc, Bool.and_comm (f y) (f x)]
  | trans _ _ ih₁ ih₂ => rw [ih₁, ih₂]

lemma filterMap_sublist_map {α β : Type _} (g : α → β) (h : α → Option β)
    (hc : ∀ a b, h a = some b → b = g a) :
    ∀ l : List α, (l.filterMap h).Sublist (l.map g)
  | [] => List.Sublist.slnil
  | a :: l => by
    rw [List.filterMap_cons, List.map_cons]
    cases hh : h a with
    | none => exact (filterMap_sublist_map g h hc l).cons _
    | some b => rw [hc a b hh]; exact (filterMap_sublist_map g h hc l).cons₂ _

lemma sortByName_sorted (l : List ItemInfo) : (sortByName l).Sorted nameLe :=
  List.sorted_insertionSort nameLe l

lemma sortByName_perm (l : List ItemInfo) : (sortByName l).Perm l :=
  List.perm_insertionSort nameLe l

/-- Two permuted item lists with no repeated names sort identically. -/
lemma sortByName_eq_of_perm {l₁ l₂ : List ItemInfo} (h : l₁.Perm l₂)
    (nd : (l₁.map ItemInfo.name).Nodup) : sortByName l₁ = sortByName l₂ := by
  have hperm : (sortByName l₁).Perm (sortByName l₂) :=
    ((sortByName_perm l₁).trans h).trans (sortByName_perm l₂).symm
  have nd₁ : ((sortByName l₁).map ItemInfo.name).Nodup :=
    (((sortByName_perm l₁).map ItemInfo.name).nodup_iff).mpr nd
  have nd₂ : ((sortByName l₂).map ItemInfo.name).Nodup :=
    ((hperm.map ItemInfo.name).nodup_iff).mp nd₁
  have strict : ∀ m : List ItemInfo, m.Sorted nameLe → (m.map ItemInfo.name).Nodup →
      m.Sorted nameLt := by
    intro m hs hn
    have hpn : m.Pairwise (fun x y : ItemInfo => x.name ≠ y.name) :=
      (List.pairwise_map).mp hn
    exact hs.and hpn
  exact List.eq_of_perm_of_sorted hperm
    (strict _ (sortByName_sorted l₁) nd₁) (strict _ (sortByName_sorted l₂) nd₂)

/-- A child key of directory `d` is `d` extended by the child's name. -/
lemma key_eq_of_child {d q : AbsPath} (hne : q ≠ []) (hdl : q.dropLast = d) :
    q = d ++ [nameOf q] := by
  have h2 : nameOf q = q.getLast hne := by
    rw [nameOf, List.getLastD_eq_getLast?, List.getLast?_eq_getLast q hne]
    rfl
  rw [h2, ← hdl]
  exact (List.dropLast_append_getLast hne).symm

/-- C7: on a validated existing directory inside the root, `list_files`
returns success with the file and directory partitions each sorted
ascending by name and `total_items` equal to the number of entries
returned; the output depends only on which children exist, not on the
enumeration order of the filesystem, so an unchanged directory yields an
identical listing on every call. -/
theorem c7_list_files_sorted_deterministic
    (wd : AbsPath) (fs₁ fs₂ : FS) (path : Candidate) (dirPath : AbsPath)
    (hv : validatePathSecurity wd path = some dirPath)
    (hin : wd <+: dirPath)
    (hdir : fs₁.lookup dirPath = some .dir) :
    (∃ relDir dirs files,
        listFiles wd fs₁ path = .ok relDir dirs files (files.length + dirs.length)
        ∧ dirs.Sorted nameLe ∧ files.Sorted nameLe)
    ∧ (fs₁.Perm fs₂ → (fs₁.map Prod.fst).Nodup →
        listFiles wd fs₁ path = listFiles wd fs₂ path) := by
  have hall : (childrenOf fs₁ dirPath).all (fun e => (relTo wd e.1).isSome) = true := by
    rw [List.all_eq_true]
    intro e he
    exact relTo_isSome_of_under (hin.trans (child_under he))
  obtain ⟨rd, hrd⟩ := Option.isSome_iff_exists.mp (relTo_isSome_of_under hin)
  constructor
  · refine ⟨rd, sortByName ((childrenOf fs₁ dirPath).filterMap (dirItem wd)),
      sortByName ((childrenOf fs₁ dirPath).filterMap (fileItem wd)), ?_,
      sortByName_sorted _, sortByName_sorted _⟩
    unfold listFiles
    rw [hv]; dsimp only
    rw [hdir]; dsimp only
    rw [if_pos hall]
    rw [hrd]; dsimp only
    rw [(sortByName_perm ((childrenOf fs₁ dirPath).filterMap (fileItem wd))).length_eq,
      (sortByName_perm ((childrenOf fs₁ dirPath).filterMap (dirItem wd))).length_eq]
  · intro hperm ndk
    have hkidsperm : (childrenOf fs₁ dirPath).Perm (childrenOf fs₂ dirPath) := hperm.filter _
    have ndkeys : ((childrenOf fs₁ dirPath).map Prod.fst).Nodup :=
      ((List.filter_sublist fs₁).map Prod.fst).nodup ndk
    have ndnames : ((childrenOf fs₁ dirPath).map (fun e => nameOf e.1)).Nodup := by
      have hmm : (childrenOf fs₁ dirPath).map (fun e => nameOf e.1)
          = ((childrenOf fs₁ dirPath).map Prod.fst).map nameOf := by
        rw [List.map_map]; rfl
      rw [hmm]
      refine ndkeys.map_on ?_
      intro x hx y hy hxy
      obtain ⟨ex, hex, hexq⟩ := List.mem_map.mp hx
      obtain ⟨ey, hey, heyq⟩ := List.mem_map.mp hy
      obtain ⟨-, hnex, hdlx⟩ := mem_childrenOf hex
      obtain ⟨-, hney, hdly⟩ := mem_childrenOf hey
      subst hexq heyq
      rw [key_eq_of_child hnex hdlx, key_eq_of_child hney hdly, hxy]
    have ndfile : (((childrenOf fs₁ dirPath).filterMap (fileItem wd)).map ItemInfo.name).Nodup := by
      refine List.Sublist.nodup ?_ ndnames
      rw [List.map_filterMap]
      refine filterMap_sublist_map _ _ ?_ _
      intro e b hb
      obtain ⟨q, ent⟩ := e
      cases ent with
      | file fd =>
        simp only [fileItem, Option.map_some'] at hb
        exact (Option.some_inj.mp hb).symm
      | dir => simp [fileItem] at hb
    have nddir : (((childrenOf fs₁ dirPath).filterMap (dirItem wd)).map ItemInfo.name).Nodup := by
      refine List.Sublist.nodup ?_ ndnames
      rw [List.map_filterMap]
      refine filterMap_sublist_map _ _ ?_ _
      intro e b hb
      obtain ⟨q, ent⟩ := e
      cases ent with
      | dir =>
        simp only [dirItem, Option.map_some'] at hb
        exact (Option.some_inj.mp hb).symm
      | file fd => simp [dirItem] at hb
    unfold listFiles
    rw [hv]; dsimp only
    rw [← lookup_eq_of_perm hperm ndk dirPath, hdir]; dsimp only
    rw [← all_eq_of_perm hkidsperm (fun e => (relTo wd e.1).isSome), if_pos hall, if_pos hall]
    rw [hrd]; dsimp only
    rw [← sortByName_eq_of_perm (hkidsperm.filterMap (dirItem wd)) nddir,
      ← sortByName_eq_of_perm (hkidsperm.filterMap (fileItem wd)) ndfile,
      ← (hkidsperm.filterMap (fileItem wd)).length_eq,
      ← (hkidsperm.filterMap (dirItem wd)).length_eq]

/-- Witness for C7: listing `.` in a store holding a directory `a` and a
file `b.txt` gives the same result for two enumeration orders of the
store. -/
theorem c7_list_files_sorted_deterministic_witness :
    listFiles ["root", "work"]
        [((["root", "work"] : AbsPath), Entry.dir),
         ((["root", "work", "b.txt"] : AbsPath), Entry.file (.text "B")),
         ((["root", "work", "a"] : AbsPath), Entry.dir)]
        ⟨false, ["."]⟩
      = listFiles ["root", "work"]
        [((["root", "work", "a"] : AbsPath), Entry.dir),
         ((["root", "work"] : AbsPath), Entry.dir),
         ((["root", "work", "b.txt"] : AbsPath), Entry.file (.text "B"))]
        ⟨false, ["."]⟩ :=
  (c7_list_files_sorted_deterministic ["root", "work"]
      [((["root", "work"] : AbsPath), Entry.dir),
       ((["root", "work", "b.txt"] : AbsPath), Entry.file (.text "B")),
       ((["root", "work", "a"] : AbsPath), Entry.dir)]
      [((["root", "work", "a"] : AbsPath), Entry.dir),
       ((["root", "work"] : AbsPath), Entry.dir),
       ((["root", "work", "b.txt"] : AbsPath), Entry.file (.text "B"))]
      ⟨false, ["."]⟩ ["root", "work"] (by decide) (by decide) (by decide)).2
    (by decide) (by decide)

/-! ## `SearchFilesTool.execute`

The `re` module is an oracle: an engine turns a pattern and the
`re.IGNORECASE` flag either into a `findall` function on file contents or
into a compilation failure (`re.error`). -/

structure RegexEngine where
  compile : String → Bool → Option (String → List String)

structure SearchMatch where
  file : String
  matchCount : Nat
  sampleMatches : List String
deriving DecidableEq, Repr

inductive SearchFilesResult where
  | ok (pattern : String) (searchPath : String) (fileExtension : Option String)
      (matchList : List SearchMatch) (totalFilesWithMatches : Nat)
  | error (msg : String)
deriving DecidableEq, Repr

def lowerChars (l : List Char) : List Char := l.map Char.toLower

/-- `file_path.name.lower().endswith(file_extension.lower())`; Python's
truthiness test means an absent or empty filter passes every file. -/
def extMatch (name : String) (ext : Option String) : Bool :=
  match ext with
  | none => true
  | some e =>
    if e = "" then true else (lowerChars e.data).isSuffixOf (lowerChars name.data)

/-- `search_path.rglob("*")` restricted by `is_file()`: every file entry
strictly under `d`, in store order. -/
def rglobFiles (fs : FS) (d : AbsPath) : List (AbsPath × FileData) :=
  fs.filterMap (fun e =>
    match e.2 with
    | .file fd => if d <+: e.1 ∧ e.1 ≠ d then some (e.1, fd) else none
    | .dir => none)

/-- The files the per-file loop visits after the extension filter. -/
def searchCandidates (fs : FS) (searchPath : AbsPath) (ext : Option String) :
    List (AbsPath × FileData) :=
  (rglobFiles fs searchPath).filter (fun e => extMatch (nameOf e.1) ext)

/-- One file's contribution to `matches`: text content is read (universal
newlines) and searched with `findall`; `UnicodeDecodeError` and
`PermissionError` are skipped by `continue`; files with an empty match
list are not recorded. -/
def fileHit (findall : String → List String) (e : AbsPath × FileData) :
    Option (AbsPath × List String) :=
  match e.2 with
  | .text s =>
    match findall (univNLStr s) with
    | [] => none
    | ms => some (e.1, ms)
  | .binary _ => none
  | .noPerm _ => none

/-- The recorded matching files, with their full match lists. -/
def searchHits (findall : String → List String) (fs : FS) (searchPath : AbsPath)
    (ext : Option String) : List (AbsPath × List String) :=
  (searchCandidates fs searchPath ext).filterMap (fileHit findall)

/-- `SearchFilesTool.execute`: validate, check the directory, compile the
pattern with `re.IGNORECASE` (a compile failure is caught by the generic
handler as an error outcome), then recursively search every candidate
file, recording per matching file the count and the first five matches,
and report the number of matching files. -/
def searchFiles (engine : RegexEngine) (wd : AbsPath) (fs : FS) (pattern : String)
    (path : Candidate) (fileExtension : Option String) : SearchFilesResult :=
  match validatePathSecurity wd path with
  | none => .error "Access denied: path outside working directory or invalid path"
  | some searchPath =>
    match fs.lookup searchPath with
    | none => .error ("Directory not found: " ++ candStr path)
    | some (.file _) => .error ("Path is not a directory: " ++ candStr path)
    | some .dir =>
      match engine.compile pattern true with
      | none => .error "Could not search files: invalid regular expression"
      | some findall =>
        if (searchHits findall fs searchPath fileExtension).all
            (fun h => (relTo wd h.1).isSome) then
          match relTo wd searchPath with
          | some relSearch =>
            .ok pattern relSearch fileExtension
              ((searchHits findall fs searchPath fileExtension).map
                (fun h => ⟨(relTo wd h.1).getD "", h.2.length, h.2.take 5⟩))
              (searchHits findall fs searchPath fileExtension).length
          | none => .error "Could not search files: path is not relative to the working directory"
        else .error "Could not search files: path is not relative to the working directory"

lemma mem_rglobFiles {fs : FS} {d : AbsPath} {x : AbsPath × FileData}
    (h : x ∈ rglobFiles fs d) : d <+: x.1 ∧ x.1 ≠ d := by
  obtain ⟨e, he, hx⟩ := List.mem_filterMap.mp h
  obtain ⟨q, ent⟩ := e
  cases ent with
  | dir => exact absurd hx (by simp)
  | file fd =>
    simp only at hx
    by_cases hcond : d <+: q ∧ q ≠ d
    · rw [if_pos hcond] at hx
      obtain rfl := Option.some_inj.mp hx
      exact hcond
    · rw [if_neg hcond] at hx
      exact absurd hx (by simp)

lemma fileHit_some {findall : String → List String} {e : AbsPath × FileData}
    {h : AbsPath × List String} (hh : fileHit findall e = some h) :
    h.1 = e.1 ∧ h.2 ≠ [] := by
  obtain ⟨q, fd⟩ := e
  cases fd with
  | text s =>
    simp only [fileHit] at hh
    cases hms : findall (univNLStr s) with
    | nil => rw [hms] at hh; exact absurd hh (by simp)
    | cons m ms =>
      rw [hms] at hh
      obtain rfl := Option.some_inj.mp hh
      exact ⟨rfl, by simp⟩
  | binary sz => exact absurd hh (by simp [fileHit])
  | noPerm sz => exact absurd hh (by simp [fileHit])

lemma mem_searchHits {findall : String → List String} {fs : FS} {sp : AbsPath}
    {ext : Option String} {h : AbsPath × List String}
    (hm : h ∈ searchHits findall fs sp ext) : sp <+: h.1 ∧ h.2 ≠ [] := by
  obtain ⟨e, he, hh⟩ := List.mem_filterMap.mp hm
  have he' : e ∈ rglobFiles fs sp := (List.mem_filter.mp he).1
  obtain ⟨hpre, -⟩ := mem_rglobFiles he'
  obtain ⟨h1, h2⟩ := fileHit_some hh
  exact ⟨h1 ▸ hpre, h2⟩

/-- C6: on a validated existing directory inside the root, `search_files`
compiles the pattern with `re.IGNORECASE`; a compilation failure is an
error outcome, otherwise the search succeeds (undecodable files never make
it fail), reporting exactly the recorded matching files, each with its
full match count, at least one match, and at most five sample substrings,
and a total equal to the number of files with at least one match. -/
theorem c6_search_files_behavior (engine : RegexEngine) (wd : AbsPath) (fs : FS)
    (pattern : String) (path : Candidate) (ext : Option String) (sp : AbsPath)
    (hv : validatePathSecurity wd path = some sp)
    (hin : wd <+: sp)
    (hd : fs.lookup sp = some .dir) :
    (engine.compile pattern true = none →
      searchFiles engine wd fs pattern path ext
        = .error "Could not search files: invalid regular expression")
    ∧ (∀ findall, engine.compile pattern true = some findall →
        searchFiles engine wd fs pattern path ext
          = .ok pattern ((relTo wd sp).getD "") ext
              ((searchHits findall fs sp ext).map
                (fun h => ⟨(relTo wd h.1).getD "", h.2.length, h.2.take 5⟩))
              (searchHits findall fs sp ext).length
        ∧ ∀ m ∈ (searchHits findall fs sp ext).map
              (fun h => (⟨(relTo wd h.1).getD "", h.2.length, h.2.take 5⟩ : SearchMatch)),
            1 ≤ m.matchCount ∧ m.sampleMatches.length ≤ 5) := by
  obtain ⟨rs, hrs⟩ := Option.isSome_iff_exists.mp (relTo_isSome_of_under hin)
  constructor
  · intro hc
    unfold searchFiles
    rw [hv]; dsimp only
    rw [hd]; dsimp only
    rw [hc]
  · intro findall hc
    have hall : ((searchHits findall fs sp ext).all
        (fun h => (relTo wd h.1).isSome)) = true := by
      rw [List.all_eq_true]
      intro h hm
      exact relTo_isSome_of_under (hin.trans (mem_searchHits hm).1)
    refine ⟨?_, ?_⟩
    · unfold searchFiles
      rw [hv]; dsimp only
      rw [hd]; dsimp only
      rw [hc]; dsimp only
      rw [if_pos hall, hrs]
      rfl
    · intro m hm
      obtain ⟨h, hh, rfl⟩ := List.mem_map.mp hm
      refine ⟨?_, ?_⟩
      · exact Nat.one_le_iff_ne_zero.mpr
          (fun e => (mem_searchHits hh).2 (List.length_eq_zero.mp e))
      · exact List.length_take_le 5 h.2

lemma lookup_middle_ne {α β : Type _} [BEq α] [LawfulBEq α] (a : α) (x : α × β)
    (hax : ¬ a = x.1) : ∀ (A B : List (α × β)),
    List.lookup a (A ++ x :: B) = List.lookup a (A ++ B)
  | [], B => by
    obtain ⟨x₁, x₂⟩ := x
    simp only [List.nil_append, List.lookup]
    rw [show (a == x₁) = false from beq_eq_false_iff_ne.mpr hax]
  | y :: A, B => by
    obtain ⟨y₁, y₂⟩ := y
    simp only [List.cons_append, List.lookup]
    cases a == y₁ with
    | true => rfl
    | false => exact lookup_middle_ne a x hax A B

lemma searchHits_append (findall : String → List String) (sp : AbsPath)
    (ext : Option String) (A B : FS) :
    searchHits findall (A ++ B) sp ext
      = searchHits findall A sp ext ++ searchHits findall B sp ext := by
  simp [searchHits, searchCandidates, rglobFiles, List.filterMap_append, List.filter_append]

/-- A file raising `PermissionError` contributes nothing to the hits. -/
lemma searchHits_noPerm (findall : String → List String) (sp p : AbsPath)
    (ext : Option String) (sz : Nat) :
    searchHits findall [(p, Entry.file (.noPerm sz))] sp ext = [] := by
  unfold searchHits searchCandidates rglobFiles
  rw [List.filterMap_cons]
  dsimp only
  by_cases hc : sp <+: p ∧ p ≠ sp
  · rw [if_pos hc]
    rw [List.filterMap_nil, List.filter_cons]
    by_cases he : extMatch (nameOf p) ext
    · simp only [he, if_pos]
      rw [List.filter_nil, List.filterMap_cons]
      simp [fileHit]
    · simp [he]
  · rw [if_neg hc]
    rfl

/-- A file whose bytes do not decode contributes nothing to the hits. -/
lemma searchHits_binary (findall : String → List String) (sp p : AbsPath)
    (ext : Option String) (sz : Nat) :
    searchHits findall [(p, Entry.file (.binary sz))] sp ext = [] := by
  unfold searchHits searchCandidates rglobFiles
  rw [List.filterMap_cons]
  dsimp only
  by_cases hc : sp <+: p ∧ p ≠ sp
  · rw [if_pos hc]
    rw [List.filterMap_nil, List.filter_cons]
    by_cases he : extMatch (nameOf p) ext
    · simp only [he, if_pos]
      rw [List.filter_nil, List.filterMap_cons]
      simp [fileHit]
    · simp [he]
  · rw [if_neg hc]
    rfl

/-- Two stores agreeing on the searched directory's lookup and on the
recorded hits produce identical `search_files` results. -/
lemma searchFiles_congr_hits (engine : RegexEngine) (wd : AbsPath) (fs₁ fs₂ : FS)
    (pattern : String) (path : Candidate) (ext : Option String)
    (hlk : ∀ sp, validatePathSecurity wd path = some sp →
      List.lookup sp fs₁ = List.lookup sp fs₂)
    (hh : ∀ findall sp, validatePathSecurity wd path = some sp →
      searchHits findall fs₁ sp ext = searchHits findall fs₂ sp ext) :
    searchFiles engine wd fs₁ pattern path ext
      = searchFiles engine wd fs₂ pattern path ext := by
  unfold searchFiles
  cases hv : validatePathSecurity wd path with
  | none => rfl
  | some sp =>
    dsimp only
    rw [hlk sp hv]
    cases List.lookup sp fs₂ with
    | none => rfl
    | some e =>
      cases e with
      | file fd => rfl
      | dir =>
        dsimp only
        cases engine.compile pattern true with
        | none => rfl
        | some findall =>
          dsimp only
          rw [hh findall sp hv]

/-- Witness for C6: searching `.py` files for a pattern matching twice in
`a.py` skips the binary `b.py` and the unreadable `c.py`, filters out
`d.txt`, and reports one matching file with count 2 and both samples. -/
theorem c6_search_files_behavior_witness :
    searchFiles ⟨fun _ _ => some (fun s => if s = "todo x todo" then ["todo", "todo"] else [])⟩
      ["root", "work"]
      [((["root", "work"] : AbsPath), Entry.dir),
       ((["root", "work", "a.py"] : AbsPath), Entry.file (.text "todo x todo")),
       ((["root", "work", "b.py"] : AbsPath), Entry.file (.binary 3)),
       ((["root", "work", "c.py"] : AbsPath), Entry.file (.noPerm 4)),
       ((["root", "work", "d.txt"] : AbsPath), Entry.file (.text "todo x todo"))]
      "todo" ⟨false, ["."]⟩ (some ".py")
    = SearchFilesResult.ok "todo" "." (some ".py") [⟨"a.py", 2, ["todo", "todo"]⟩] 1 := by
  have h := ((c6_search_files_behavior
      ⟨fun _ _ => some (fun s => if s = "todo x todo" then ["todo", "todo"] else [])⟩
      ["root", "work"]
      [((["root", "work"] : AbsPath), Entry.dir),
       ((["root", "work", "a.py"] : AbsPath), Entry.file (.text "todo x todo")),
       ((["root", "work", "b.py"] : AbsPath), Entry.file (.binary 3)),
       ((["root", "work", "c.py"] : AbsPath), Entry.file (.noPerm 4)),
       ((["root", "work", "d.txt"] : AbsPath), Entry.file (.text "todo x todo"))]
      "todo" ⟨false, ["."]⟩ (some ".py") ["root", "work"]
      (by decide) (by decide) (by decide)).2
      (fun s => if s = "todo x todo" then ["todo", "todo"] else []) rfl).1
  exact h.trans (by decide)

/-- C9: a file raising `PermissionError` when opened during a
`search_files` traversal is silently skipped exactly like a binary file:
the result equals the result on the store without that file — so the file
is never mentioned and never turns the outcome into an error — and equals
the result with the file replaced by an undecodable one. -/
theorem c9_search_files_permission_skip (engine : RegexEngine) (wd : AbsPath)
    (A B : FS) (p : AbsPath) (sz sz' : Nat) (pattern : String) (path : Candidate)
    (ext : Option String) (sp : AbsPath)
    (hv : validatePathSecurity wd path = some sp)
    (hne : p ≠ sp) :
    searchFiles engine wd (A ++ (p, Entry.file (.noPerm sz)) :: B) pattern path ext
      = searchFiles engine wd (A ++ B) pattern path ext
    ∧ searchFiles engine wd (A ++ (p, Entry.file (.noPerm sz)) :: B) pattern path ext
      = searchFiles engine wd (A ++ (p, Entry.file (.binary sz')) :: B) pattern path ext := by
  have herase : ∀ (findall : String → List String) (fd : FileData),
      searchHits findall [(p, Entry.file fd)] sp ext = [] →
      searchHits findall (A ++ (p, Entry.file fd) :: B) sp ext
        = searchHits findall (A ++ B) sp ext := by
    intro findall fd hz
    have hsplit : A ++ (p, Entry.file fd) :: B = (A ++ [(p, Entry.file fd)]) ++ B := by simp
    rw [hsplit, searchHits_append, searchHits_append, hz, List.append_nil, ← searchHits_append]
  have hcong : ∀ (fd : FileData),
      (∀ findall, searchHits findall [(p, Entry.file fd)] sp ext = []) →
      searchFiles engine wd (A ++ (p, Entry.file fd) :: B) pattern path ext
        = searchFiles engine wd (A ++ B) pattern path ext := by
    intro fd hz
    refine searchFiles_congr_hits engine wd _ _ pattern path ext ?_ ?_
    · intro sp' hv'
      rw [hv] at hv'
      obtain rfl := Option.some_inj.mp hv'
      exact lookup_middle_ne sp (p, Entry.file fd) (fun h => hne h.symm) A B
    · intro findall sp' hv'
      rw [hv] at hv'
      obtain rfl := Option.some_inj.mp hv'
      exact herase findall fd (hz findall)
  have h1 := hcong (.noPerm sz) (fun findall => searchHits_noPerm findall sp p ext sz)
  have h2 := hcong (.binary sz') (fun findall => searchHits_binary findall sp p ext sz')
  exact ⟨h1, h1.trans h2.symm⟩

/-- Witness for C9: searching a store with an unreadable `locked.txt` gives
the same result as without it, and as with it replaced by a binary file. -/
theorem c9_search_files_permission_skip_witness :
    searchFiles ⟨fun _ _ => some (fun s => [s])⟩ ["root", "work"]
        ([((["root", "work"] : AbsPath), Entry.dir),
          ((["root", "work", "a.txt"] : AbsPath), Entry.file (.text "x"))]
          ++ (((["root", "work", "locked.txt"] : AbsPath), Entry.file (.noPerm 7)) :: []))
        "x" ⟨false, ["."]⟩ none
      = searchFiles ⟨fun _ _ => some (fun s => [s])⟩ ["root", "work"]
        ([((["root", "work"] : AbsPath), Entry.dir),
          ((["root", "work", "a.txt"] : AbsPath), Entry.file (.text "x"))] ++ [])
        "x" ⟨false, ["."]⟩ none :=
  (c9_search_files_permission_skip ⟨fun _ _ => some (fun s => [s])⟩ ["root", "work"]
    [((["root", "work"] : AbsPath), Entry.dir),
     ((["root", "work", "a.txt"] : AbsPath), Entry.file (.text "x"))]
    [] ["root", "work", "locked.txt"] 7 3 "x" ⟨false, ["."]⟩ none ["root", "work"]
    (by decide) (by decide)).1

/-! ## Python exceptions, tool registry (`src/tools/base.py`) -/

/-- The outcome of calling a Python function: a value, or a raised
exception carrying its description `str(e)`. -/
inductive PyResult (α : Type _) where
  | ok (val : α)
  | exn (msg : String)
deriving DecidableEq, Repr

/-- A tool-result dict as the registry sees it; only the `"error"` key is
ever inspected by callers. -/
abbrev PyDict := List (String × String)

/-- A registered tool: `execute(**kwargs)` either returns a dict or
raises. -/
structure Tool where
  name : String
  exec : PyDict → PyResult PyDict

/-- `ToolRegistry._tools`; `register` is `dict.__setitem__`
(last-write-wins), `get_tool` is `dict.get`. -/
abbrev Registry := List (String × Tool)

def getTool (reg : Registry) (name : String) : Option Tool :=
  List.lookup name reg

/-- `ToolRegistry.execute_tool`: an unknown name yields an error dict, a
raising tool is caught and converted to an error dict.  The codomain is
`PyResult` so that "never raises" is expressible; the theorem shows the
result is always `ok`. -/
def executeTool (reg : Registry) (name : String) (args : PyDict) : PyResult PyDict :=
  match getTool reg name with
  | none => .ok [("error", "Unknown tool: " ++ name)]
  | some t =>
    match t.exec args with
    | .ok d => .ok d
    | .exn e => .ok [("error", "Tool execution failed: " ++ e)]

/-- C4: `execute_tool` never raises: every dispatch returns a dict; an
unknown name returns the unknown-tool error dict, a raising tool the
wrapped execution-failure dict, and a normally returning tool its own
dict. -/
theorem c4_execute_tool_never_raises (reg : Registry) (name : String) (args : PyDict) :
    (∃ d, executeTool reg name args = .ok d)
    ∧ (getTool reg name = none →
        executeTool reg name args = .ok [("error", "Unknown tool: " ++ name)])
    ∧ (∀ t e, getTool reg name = some t → t.exec args = .exn e →
        executeTool reg name args = .ok [("error", "Tool execution failed: " ++ e)])
    ∧ (∀ t d, getTool reg name = some t → t.exec args = .ok d →
        executeTool reg name args = .ok d) := by
  refine ⟨?_, ?_, ?_, ?_⟩
  · unfold executeTool
    cases getTool reg name with
    | none => exact ⟨_, rfl⟩
    | some t =>
      dsimp only
      cases t.exec args with
      | ok d => exact ⟨d, rfl⟩
      | exn e => exact ⟨_, rfl⟩
  · intro h; unfold executeTool; rw [h]
  · intro t e ht he; unfold executeTool; rw [ht]; dsimp only; rw [he]
  · intro t d ht hd; unfold executeTool; rw [ht]; dsimp only; rw [hd]

/-- Witness for C4: a registry holding one raising tool; dispatching an
absent name and the raising tool both return error dicts. -/
theorem c4_execute_tool_never_raises_witness :
    executeTool [("boom", ⟨"boom", fun _ => .exn "ValueError"⟩)] "nope" []
      = .ok [("error", "Unknown tool: nope")]
    ∧ executeTool [("boom", ⟨"boom", fun _ => .exn "ValueError"⟩)] "boom" []
      = .ok [("error", "Tool execution failed: ValueError")] :=
  ⟨(c4_execute_tool_never_raises [("boom", ⟨"boom", fun _ => .exn "ValueError"⟩)]
      "nope" []).2.1 rfl,
   (c4_execute_tool_never_raises [("boom", ⟨"boom", fun _ => .exn "ValueError"⟩)]
      "boom" []).2.2.1 ⟨"boom", fun _ => .exn "ValueError"⟩ "ValueError" rfl rfl⟩

/-! ## Persisted history: `CodingAgent.load_history` -/

structure Msg where
  role : String
  content : String
deriving DecidableEq, Repr

/-- `add_message`. -/
def addMessage (msgs : List Msg) (role content : String) : List Msg :=
  msgs ++ [⟨role, content⟩]

/-- `save_history` swallows its own exceptions: whatever the underlying
file write does, the call returns normally. -/
def saveHistory (write : PyResult Unit) : Unit :=
  match write with
  | .ok _ => ()
  | .exn _ => ()

/-- `process_message`: `react_loop` is a behavior parameter mapping the
current message list to the mutated list and either an answer or a raised
exception; `write` is the behavior of the history-file write.  The
`except` branch renders the exception, appends it as the assistant
message, saves inside a bare `try`, and returns the error string. -/
def processMessage (react : List Msg → List Msg × PyResult String)
    (write : PyResult Unit) (msgs : List Msg) : List Msg × PyResult String :=
  match react msgs with
  | (msgs₁, .ok r) =>
    let _ := saveHistory write
    (msgs₁, .ok r)
  | (msgs₁, .exn e) =>
    let msgs₂ := addMessage msgs₁ "assistant" ("Unexpected error: " ++ e)
    let _ := saveHistory write
    (msgs₂, .ok ("Unexpected error: " ++ e))

/-- C10: `process_message` never propagates an exception: it always
returns an answer; when `react_loop` raises, the rendered error string is
appended to the history as the assistant message and returned; and the
history-write behavior never affects the returned answer. -/
theorem c10_process_message_never_raises
    (react : List Msg → List Msg × PyResult String)
    (write₁ write₂ : PyResult Unit) (msgs : List Msg) :
    (∃ msgs' r, processMessage react write₁ msgs = (msgs', PyResult.ok r))
    ∧ (∀ msgs₁ e, react msgs = (msgs₁, .exn e) →
        processMessage react write₁ msgs
          = (addMessage msgs₁ "assistant" ("Unexpected error: " ++ e),
             .ok ("Unexpected error: " ++ e)))
    ∧ processMessage react write₁ msgs = processMessage react write₂ msgs := by
  refine ⟨?_, ?_, ?_⟩
  · unfold processMessage
    rcases react msgs with ⟨msgs₁, r⟩
    cases r with
    | ok a => exact ⟨msgs₁, a, rfl⟩
    | exn e => exact ⟨_, _, rfl⟩
  · intro msgs₁ e h
    unfold processMessage
    rw [h]
  · unfold processMessage
    rcases react msgs with ⟨msgs₁, r⟩
    cases r with
    | ok a => rfl
    | exn e => rfl

/-- Witness for C10: a turn that raises `RuntimeError: boom` while the
history write also fails still returns the error answer and appends it. -/
theorem c10_process_message_never_raises_witness :
    processMessage (fun m => (m, .exn "boom")) (.exn "disk full") []
      = (addMessage [] "assistant" "Unexpected error: boom", .ok "Unexpected error: boom") :=
  (c10_process_message_never_raises (fun m => (m, .exn "boom"))
    (.exn "disk full") (.ok ()) []).2.1 [] "boom" rfl

/-! ## `CodingAgent.react_loop` (`src/agent.py`) and `REACT_SAFETY_LIMIT`
(`src/config.py`)

The Gemini model is an oracle (`script`) mapping the current message list
to a response: an API error, or text parts plus function calls.  Tool
dispatch and result formatting are a second oracle (`dispatch`) mapping
the batch of calls to the synthetic messages appended to the working
list.  Messages are their text content. -/

def REACT_SAFETY_LIMIT : Nat := 20

inductive ModelResp where
  | apiError (e : String)
  | reply (texts : List String) (calls : List String)

/-- How the `while` loop ended: an early `return` on an API error, the
`break` when the response held no function calls, or the `while`
condition `iterations < REACT_SAFETY_LIMIT` failing — the iteration
cap.  Each exit carries the final `iterations` and
`last_complete_response`. -/
inductive LoopExit where
  | apiError (iterations : Nat) (errorMsg : String)
  | finished (iterations : Nat) (last : Option String)
  | capped (iterations : Nat) (last : Option String)
deriving DecidableEq, Repr

def LoopExit.iters : LoopExit → Nat
  | .apiError n _ => n
  | .finished n _ => n
  | .capped n _ => n

/-- The `while iterations < REACT_SAFETY_LIMIT` loop, with `fuel` the
remaining allowed iterations: one model call per iteration, text parts
joined with `"\n"` into `last_complete_response`, tool results appended
to the working messages. -/
def runLoop (script : List String → ModelResp) (dispatch : List String → List String) :
    Nat → Nat → List String → Option String → LoopExit
  | 0, iters, _, last => .capped iters last
  | fuel + 1, iters, msgs, last =>
    match script msgs with
    | .apiError e => .apiError (iters + 1) ("Error: " ++ e)
    | .reply texts calls =>
      let last' := if texts.isEmpty then last else some (String.intercalate "\n" texts)
      if calls.isEmpty then .finished (iters + 1) last'
      else runLoop script dispatch fuel (iters + 1) (msgs ++ dispatch calls) last'

/-- The suffix appended when `iterations >= REACT_SAFETY_LIMIT`. -/
def safetyLimitNotice : String :=
  "\n\n(Note: I reached my processing limit of " ++ toString REACT_SAFETY_LIMIT
    ++ " iterations. You may want to break this down into smaller steps.)"

structure ReactOutcome where
  finalResponse : String
  iterations : Nat
  stoppedByCap : Bool
deriving DecidableEq, Repr

/-- `react_loop` after the user message is appended: run the loop, take
`last_complete_response or "I couldn't generate a response."`, and append
the notice whenever `iterations >= REACT_SAFETY_LIMIT`; an API error
returns its message immediately with no notice.  `stoppedByCap` records
(for specification purposes) whether the exit came from the `while`
condition rather than the `break`. -/
def reactLoop (script : List String → ModelResp) (dispatch : List String → List String)
    (initMsgs : List String) : ReactOutcome :=
  match runLoop script dispatch REACT_SAFETY_LIMIT 0 initMsgs none with
  | .apiError iters e => ⟨e, iters, false⟩
  | .finished iters last =>
    ⟨if REACT_SAFETY_LIMIT ≤ iters then
        last.getD "I couldn't generate a response." ++ safetyLimitNotice
      else last.getD "I couldn't generate a response.", iters, false⟩
  | .capped iters last =>
    ⟨if REACT_SAFETY_LIMIT ≤ iters then
        last.getD "I couldn't generate a response." ++ safetyLimitNotice
      else last.getD "I couldn't generate a response.", iters, true⟩

lemma runLoop_iters_le (script : List String → ModelResp)
    (dispatch : List String → List String) :
    ∀ (fuel iters : Nat) (msgs : List String) (last : Option String),
      (runLoop script dispatch fuel iters msgs last).iters ≤ iters + fuel
  | 0, iters, _, last => Nat.le_refl _
  | fuel + 1, iters, msgs, last => by
    unfold runLoop
    cases script msgs with
    | apiError e => simp only [LoopExit.iters]; omega
    | reply texts calls =>
      dsimp only
      by_cases hc : calls.isEmpty
      · rw [if_pos hc]; simp only [LoopExit.iters]; omega
      · rw [if_neg hc]
        have := runLoop_iters_le script dispatch fuel (iters + 1)
          (msgs ++ dispatch calls)
          (if texts.isEmpty then last else some (String.intercalate "\n" texts))
        omega

lemma runLoop_capped_iters (script : List String → ModelResp)
    (dispatch : List String → List String) :
    ∀ (fuel iters : Nat) (msgs : List String) (last : Option String) (n : Nat)
      (l : Option String),
      runLoop script dispatch fuel iters msgs last = .capped n l → n = iters + fuel
  | 0, iters, msgs, last, n, l => by
    intro h
    unfold runLoop at h
    obtain ⟨rfl, -⟩ := LoopExit.capped.inj h
    omega
  | fuel + 1, iters, msgs, last, n, l => by
    intro h
    unfold runLoop at h
    cases hs : script msgs with
    | apiError e => rw [hs] at h; exact absurd h (by simp)
    | reply texts calls =>
      rw [hs] at h
      dsimp only at h
      by_cases hc : calls.isEmpty
      · rw [if_pos hc] at h; exact absurd h (by simp)
      · rw [if_neg hc] at h
        have := runLoop_capped_iters script dispatch fuel (iters + 1)
          (msgs ++ dispatch calls)
          (if texts.isEmpty then last else some (String.intercalate "\n" texts)) n l h
        omega

lemma runLoop_always_calls (script : List String → ModelResp)
    (dispatch : List String → List String)
    (h : ∀ msgs, ∃ texts calls, script msgs = .reply texts calls ∧ calls ≠ []) :
    ∀ (fuel iters : Nat) (msgs : List String) (last : Option String),
      ∃ l, runLoop script dispatch fuel iters msgs last = .capped (iters + fuel) l
  | 0, iters, msgs, last => ⟨last, by unfold runLoop; rw [Nat.add_zero]⟩
  | fuel + 1, iters, msgs, last => by
    obtain ⟨texts, calls, hs, hne⟩ := h msgs
    have hc : ¬ (calls.isEmpty = true) := by
      cases calls with
      | nil => exact absurd rfl hne
      | cons a l => simp
    unfold runLoop
    rw [hs]
    dsimp only
    rw [if_neg hc]
    obtain ⟨l, hl⟩ := runLoop_always_calls script dispatch h fuel (iters + 1)
      (msgs ++ dispatch calls)
      (if texts.isEmpty then last else some (String.intercalate "\n" texts))
    exact ⟨l, by rw [hl]; congr 1; omega⟩

/-- C3 (counterexample): a model that makes tool calls for 19 iterations
and finishes with a plain answer on its 20th call ends by the
no-tool-calls `break`, not by the iteration cap, yet the final answer
still carries the limit notice: the code appends it whenever
`iterations >= REACT_SAFETY_LIMIT`, which also holds on a genuine finish
at the 20th iteration.  So "the notice is appended exactly when the loop
was stopped by the cap" is false. -/
theorem c3_react_loop_counterexample :
    (reactLoop
        (fun msgs => if msgs.length < 20 then .reply [] ["call"] else .reply ["done"] [])
        (fun _ => ["tool result"]) ["user input"]).stoppedByCap = false
    ∧ (reactLoop
        (fun msgs => if msgs.length < 20 then .reply [] ["call"] else .reply ["done"] [])
        (fun _ => ["tool result"]) ["user input"]).finalResponse
      = "done" ++ safetyLimitNotice
    ∧ (reactLoop
        (fun msgs => if msgs.length < 20 then .reply [] ["call"] else .reply ["done"] [])
        (fun _ => ["tool result"]) ["user input"]).iterations = 20 :=
  ⟨by decide, by decide, by decide⟩

/-- C3 (amended): every run performs at most `REACT_SAFETY_LIMIT` (20)
model-call iterations; a model emitting tool calls on every call is
stopped by the cap at exactly 20 iterations with the notice appended; and
every cap-stop carries the notice — but the notice is appended whenever
the 20th iteration was reached, including when the model genuinely
finished on it, so the notice alone does not distinguish completion from
truncation. -/
theorem c3_react_loop_amended (script : List String → ModelResp)
    (dispatch : List String → List String) (initMsgs : List String) :
    (reactLoop script dispatch initMsgs).iterations ≤ REACT_SAFETY_LIMIT
    ∧ ((∀ msgs, ∃ texts calls, script msgs = .reply texts calls ∧ calls ≠ []) →
        (reactLoop script dispatch initMsgs).stoppedByCap = true
        ∧ (reactLoop script dispatch initMsgs).iterations = REACT_SAFETY_LIMIT
        ∧ ∃ base, (reactLoop script dispatch initMsgs).finalResponse
            = base ++ safetyLimitNotice)
    ∧ ((reactLoop script dispatch initMsgs).stoppedByCap = true →
        (reactLoop script dispatch initMsgs).iterations = REACT_SAFETY_LIMIT
        ∧ ∃ base, (reactLoop script dispatch initMsgs).finalResponse
            = base ++ safetyLimitNotice) := by
  refine ⟨?_, ?_, ?_⟩
  · unfold reactLoop
    cases hex : runLoop script dispatch REACT_SAFETY_LIMIT 0 initMsgs none with
    | apiError n e =>
      have hb := runLoop_iters_le script dispatch REACT_SAFETY_LIMIT 0 initMsgs none
      rw [hex] at hb
      simpa [LoopExit.iters] using hb
    | finished n l =>
      have hb := runLoop_iters_le script dispatch REACT_SAFETY_LIMIT 0 initMsgs none
      rw [hex] at hb
      simpa [LoopExit.iters] using hb
    | capped n l =>
      have hb := runLoop_iters_le script dispatch REACT_SAFETY_LIMIT 0 initMsgs none
      rw [hex] at hb
      simpa [LoopExit.iters] using hb
  · intro hcalls
    obtain ⟨l, hl⟩ :=
      runLoop_always_calls script dispatch hcalls REACT_SAFETY_LIMIT 0 initMsgs none
    unfold reactLoop
    rw [hl]
    dsimp only
    refine ⟨rfl, by omega, ?_⟩
    rw [if_pos (by omega)]
    exact ⟨_, rfl⟩
  · intro hcap
    unfold reactLoop at hcap ⊢
    cases hex : runLoop script dispatch REACT_SAFETY_LIMIT 0 initMsgs none with
    | apiError n e => rw [hex] at hcap; simp at hcap
    | finished n l => rw [hex] at hcap; simp at hcap
    | capped n l =>
      have hn := runLoop_capped_iters script dispatch REACT_SAFETY_LIMIT 0 initMsgs
        none n l hex
      dsimp only
      refine ⟨by omega, ?_⟩
      rw [if_pos (by omega)]
      exact ⟨_, rfl⟩

/-- Witness for C3 (amended): a model that always calls a tool is stopped
by the cap at exactly 20 iterations. -/
theorem c3_react_loop_amended_witness :
    (reactLoop (fun _ => .reply [] ["call"]) (fun _ => ["tool result"])
        ["user input"]).stoppedByCap = true
    ∧ (reactLoop (fun _ => .reply [] ["call"]) (fun _ => ["tool result"])
        ["user input"]).iterations = REACT_SAFETY_LIMIT := by
  have h := (c3_react_loop_amended (fun _ => .reply [] ["call"])
    (fun _ => ["tool result"]) ["user input"]).2.1
    (fun _ => ⟨[], ["call"], rfl, by simp⟩)
  exact ⟨h.1, h.2.1⟩

/-! ## `ShellExecTool.execute` (`src/tools/shell_exec.py`) -/

/-- Behavior of `asyncio.create_subprocess_shell` and the spawned child:
the spawn may raise, or the child would run for `runtime` seconds before
exiting with the given code and output. -/
inductive SpawnBehavior where
  | raiseFileNotFound (msg : String)
  | raisePermission (msg : String)
  | raiseOther (msg : String)
  | child (runtime : Nat) (exitCode : Int) (stdout stderr : String)

/-- The state of the child process at the moment `execute` returns. -/
inductive ProcState where
  | notSpawned
  | exitedOnItsOwn
  | killedAndReaped
  | stillRunning
deriving DecidableEq, Repr

inductive ShellResult where
  | ok (success : Bool) (stdout stderr : String) (exitCode : Int) (command : String)
  | error (msg : String)
deriving DecidableEq, Repr

/-- The fixed wall-clock timeout passed to `asyncio.wait_for`. -/
def SHELL_TIMEOUT : Nat := 10

/-- `ShellExecTool.execute`: reject blank commands before spawning; on
`asyncio.TimeoutError` the child is killed (`proc.kill()`) and reaped
(`await proc.wait()`) before the timeout error is returned, so the
returned process state is `killedAndReaped`, never `stillRunning`. -/
def shellExec (command : String) (b : SpawnBehavior) : ShellResult × ProcState :=
  if command.data.all (fun c => c.isWhitespace) then
    (.error "Command cannot be empty", .notSpawned)
  else
    match b with
    | .raiseFileNotFound _ => (.error ("Command not found: " ++ command), .notSpawned)
    | .raisePermission _ =>
      (.error ("Permission denied executing command: " ++ command), .notSpawned)
    | .raiseOther m => (.error ("Shell execution failed: " ++ m), .notSpawned)
    | .child runtime exitCode out err =>
      if runtime ≤ SHELL_TIMEOUT then
        (.ok (exitCode == 0) out err exitCode command, .exitedOnItsOwn)
      else
        (.error "Execution timed out after 10 seconds", .killedAndReaped)

/-- C8: a command whose child outlives the fixed 10-second timeout makes
`shell_exec` return the timed-out error outcome with the child killed and
reaped; and no execution whatsoever returns while the child is still
running. -/
theorem c8_shell_exec_timeout (command : String) (b : SpawnBehavior)
    (runtime : Nat) (exitCode : Int) (out err : String)
    (hb : b = .child runtime exitCode out err)
    (hlong : SHELL_TIMEOUT < runtime)
    (hne : command.data.all (fun c => c.isWhitespace) = false) :
    (shellExec command b).1 = .error "Execution timed out after 10 seconds"
    ∧ (shellExec command b).2 = .killedAndReaped
    ∧ ∀ (c : String) (b' : SpawnBehavior), (shellExec c b').2 ≠ ProcState.stillRunning := by
  have hmain : shellExec command b
      = (.error "Execution timed out after 10 seconds", .killedAndReaped) := by
    unfold shellExec
    rw [hb, hne]
    dsimp only
    rw [if_neg (show ¬ (runtime ≤ SHELL_TIMEOUT) by omega)]
    simp
  refine ⟨by rw [hmain], by rw [hmain], ?_⟩
  intro c b'
  unfold shellExec
  by_cases hw : c.data.all (fun ch => ch.isWhitespace) = true
  · rw [if_pos hw]; simp
  · rw [if_neg hw]
    cases b' with
    | raiseFileNotFound m => simp
    | raisePermission m => simp
    | raiseOther m => simp
    | child rt ec o e =>
      dsimp only
      by_cases hrt : rt ≤ SHELL_TIMEOUT
      · rw [if_pos hrt]; simp
      · rw [if_neg hrt]; simp

/-- Witness for C8: `sleep 30` (30-second child) times out, is killed and
reaped. -/
theorem c8_shell_exec_timeout_witness :
    (shellExec "sleep 30" (.child 30 0 "" "")).1
      = ShellResult.error "Execution timed out after 10 seconds"
    ∧ (shellExec "sleep 30" (.child 30 0 "" "")).2 = ProcState.killedAndReaped := by
  have h := c8_shell_exec_timeout "sleep 30" (.child 30 0 "" "") 30 0 "" ""
    rfl (by decide) (by decide)
  exact ⟨h.1, h.2.1⟩

end GeminiAgent
